import Mathlib

/-!
Verification of `waffle_utils/file/io.py`.

Paths are modelled as lists of segments of an absolute path (`APath`);
`renderPath` produces the string form `str(Path(...))` and `parsePath`
parses a string back into segments, mirroring `pathlib.Path` on absolute
POSIX paths.  The filesystem is a pair of lists: the directories and the
regular files currently present.  The functions under verification —
`get_files_list`, `get_extension`, `copy_files_to_directory` — are
translated clause by clause from the source; the Python standard-library
and third-party primitives they call (`os.path.commonpath`, `str.replace`,
`Path.suffix`, `Path.glob`, `Path.mkdir`, `shutil.copy`, `natsort`) are
modelled at their documented interfaces.
-/

/-- Segments of an absolute path, e.g. `/a/b.txt` is `["a", "b.txt"]`. -/
abbrev APath := List String

/-- `str(Path(p))` for an absolute path: `"/" ++ segments joined by "/"`. -/
def renderPath (p : APath) : String := "/" ++ String.intercalate "/" p

/-- Split a character list on `/` (accumulator holds the current segment
reversed). -/
def splitSegsAux : List Char → List Char → List String
  | [], acc => [String.mk acc.reverse]
  | c :: cs, acc =>
    if c = '/' then String.mk acc.reverse :: splitSegsAux cs []
    else splitSegsAux cs (c :: acc)

/-- `Path(s)` for a string: split on `/` and drop empty segments. -/
def parsePath (s : String) : APath := (splitSegsAux s.data []).filter (fun seg => seg ≠ "")

/-- A filesystem snapshot: which paths are directories and which are files. -/
structure FS where
  dirs : List APath
  files : List APath
deriving DecidableEq

/-- `Path.is_dir()`. -/
def FS.isDir (fs : FS) (p : APath) : Bool := decide (p ∈ fs.dirs)

/-- `Path.is_file()`. -/
def FS.isFile (fs : FS) (p : APath) : Bool := decide (p ∈ fs.files)

/-- `Path.exists()`: a directory or a file is present at the path. -/
def FS.pathExists (fs : FS) (p : APath) : Bool := fs.isDir p || fs.isFile p

/-- `Path(d).glob("**/*")`: every entry (directory or file) strictly below
`d`, in the snapshot's enumeration order (the order is
implementation-defined in the source). -/
def FS.glob (fs : FS) (d : APath) : List APath :=
  (fs.dirs ++ fs.files).filter (fun p => decide (d <+: p ∧ d ≠ p))

/-- All of `p`'s ancestors (including the root `[]` and `p` itself). -/
def ancestorsOf (p : APath) : List APath :=
  (List.range (p.length + 1)).map (fun n => p.take n)

/-- `make_directory` / `Path.mkdir(parents=True, exist_ok=True)`:
idempotently create `p` and every missing ancestor. -/
def FS.mkdirRec (fs : FS) (p : APath) : FS :=
  { fs with dirs := fs.dirs ++ (ancestorsOf p).filter (fun q => !(decide (q ∈ fs.dirs))) }

/-- `str.rfind('.')` on a character list: index of the last dot, if any. -/
def rfindDot (cs : List Char) : Option Nat :=
  ((List.range cs.length).filter (fun i => cs.getD i ' ' == '.')).getLast?

/-- `PurePath.suffix` of a single path component `name`:
`name[i:]` for the last dot index `i` when `0 < i < len(name) - 1`,
otherwise the empty string. -/
def pySuffix (name : String) : String :=
  let cs := name.data
  match rfindDot cs with
  | some i => if 0 < i ∧ i + 1 < cs.length then String.mk (cs.drop i) else ""
  | none => ""

/-- `Path(p).suffix`: the suffix of the final path component (`Path.name`,
which is the empty string for the root). -/
def pathSuffix (p : APath) : String := pySuffix (p.getLastD "")

/-- One pass of Python `str.replace`: scan left to right, replacing each
non-overlapping occurrence of `pat` by `rep`.  `fuel` bounds the recursion;
the callers only use a nonempty `pat`, and supply `fuel = s.length`, which
suffices because each step consumes at least one character. -/
def pyReplaceAux (pat rep : List Char) : Nat → List Char → List Char
  | 0, s => s
  | Nat.succ fuel, s =>
    if pat <+: s ∧ pat ≠ [] then rep ++ pyReplaceAux pat rep fuel (s.drop pat.length)
    else
      match s with
      | [] => []
      | c :: rest => c :: pyReplaceAux pat rep fuel rest

/-- Python `s.replace(pat, rep)` (for nonempty `pat`). -/
def pyReplace (s pat rep : String) : String :=
  String.mk (pyReplaceAux pat.data rep.data s.data.length s.data)

/-- `str(src_file).replace(str(src_prefix), str(dst))` — the destination
path string computed inside the copy loop of `copy_files_to_directory`. -/
def dstFileStr (preS dstS : String) (p : APath) : String :=
  pyReplace (renderPath p) preS dstS

/-- Longest common leading segment sequence of two paths. -/
def lcp : APath → APath → APath
  | a :: as, b :: bs => if a = b then a :: lcp as bs else []
  | _, _ => []

/-- `os.path.commonpath` on a nonempty list `q :: qs` of absolute paths:
the longest common leading path (segment-wise). -/
def commonPathNE (q : APath) (qs : List APath) : APath := qs.foldl lcp q

/-- The `src` argument of `copy_files_to_directory`: a list of paths, or a
single path (string / `Path`). -/
inductive Src where
  | coll (ps : List APath)
  | single (p : APath)

/-- A single filesystem mutation performed by `copy_files_to_directory`:
a recursive directory creation, or a file copy (`shutil.copy`). -/
inductive Mutation where
  | mkdirRec (p : APath)
  | copyFile (src dst : APath)
deriving DecidableEq

/-- The errors `copy_files_to_directory` can raise:
`FileNotFoundError("unknown source ...")`, the `ValueError` raised by
`os.path.commonpath` on an empty sequence, the
`ValueError("dst should be directory format ...")`, and the
`FileNotFoundError("... directory does not exist ...")`. -/
inductive CopyError where
  | unknownSource
  | emptyCommon
  | dstNotDirectoryFormat
  | dstMissing
deriving DecidableEq

/-- Outcome of a run of `copy_files_to_directory`: the error (if one was
raised), the filesystem at that point, and the ordered list of mutations
performed. -/
structure RunResult where
  err : Option CopyError
  fs : FS
  trace : List Mutation
deriving DecidableEq

/-- The final loop of `copy_files_to_directory`:
for each `src_file` in `srcList`, compute
`dst_file = Path(str(src_file).replace(str(src_prefix), str(dst)))`,
run `make_directory(dst_file.parent)`, and if `src_file.is_file()`
copy it to `dst_file`. -/
def copyLoop (preS dstS : String) (fs : FS) : List APath → FS × List Mutation
  | [] => (fs, [])
  | p :: rest =>
    let d := parsePath (dstFileStr preS dstS p)
    let fs1 := fs.mkdirRec d.dropLast
    if fs1.isFile p then
      let fs2 : FS := { fs1 with files := fs1.files ++ [d] }
      let r := copyLoop preS dstS fs2 rest
      (r.1, Mutation.mkdirRec d.dropLast :: Mutation.copyFile p d :: r.2)
    else
      let r := copyLoop preS dstS fs1 rest
      (r.1, Mutation.mkdirRec d.dropLast :: r.2)

/-- The destination-handling and copy phase of `copy_files_to_directory`,
entered once the source is resolved into `(srcList, pre)`:
raise `ValueError` if `dst.suffix != ""`; else `make_directory(dst)` when
`create_directory`; raise `FileNotFoundError` if `dst` still does not
exist; else run the copy loop. -/
def afterResolve (fs : FS) (srcList : List APath) (pre dst : APath) (cd : Bool) : RunResult :=
  if pathSuffix dst ≠ "" then
    { err := some CopyError.dstNotDirectoryFormat, fs := fs, trace := [] }
  else
    let fs1 := if cd then fs.mkdirRec dst else fs
    let tr1 : List Mutation := if cd then [Mutation.mkdirRec dst] else []
    if fs1.pathExists dst = false then
      { err := some CopyError.dstMissing, fs := fs1, trace := tr1 }
    else
      let r := copyLoop (renderPath pre) (renderPath dst) fs1 srcList
      { err := none, fs := r.1, trace := tr1 ++ r.2 }

/-- `copy_files_to_directory(src, dst, create_directory)`:
resolve the source — a list gives `os.path.commonpath(src)` as prefix and
the list itself; a single existing file gives itself and its parent; a
single existing directory gives its recursive glob and itself; anything
else raises `FileNotFoundError("unknown source ...")` — then hand over to
the destination phase. -/
def copy_files_to_directory (fs : FS) (src : Src) (dst : APath) (cd : Bool) : RunResult :=
  match src with
  | Src.coll [] => { err := some CopyError.emptyCommon, fs := fs, trace := [] }
  | Src.coll (q :: qs) => afterResolve fs (q :: qs) (commonPathNE q qs) dst cd
  | Src.single p =>
    if fs.isFile p then afterResolve fs [p] p.dropLast dst cd
    else if fs.isDir p then afterResolve fs (fs.glob p) p dst cd
    else { err := some CopyError.unknownSource, fs := fs, trace := [] }

/-- Decidable form of "the source specification resolves": a nonempty list,
or a single path that is an existing file or directory. -/
def resolvesB (fs : FS) (src : Src) : Bool :=
  match src with
  | Src.coll ps => decide (ps ≠ [])
  | Src.single p => fs.isFile p || fs.isDir p

/-- One chunk of a natural-sort key: a run of digits (as its numeric
value) or a run of non-digit characters. -/
inductive NatChunk where
  | num (n : Nat)
  | str (cs : List Char)
deriving DecidableEq

/-- Extend a reversed chunk list by one character (digits accumulate into
the current numeric chunk, other characters into the current text chunk). -/
def addChunk (acc : List NatChunk) (c : Char) : List NatChunk :=
  if c.isDigit then
    match acc with
    | NatChunk.num n :: rest => NatChunk.num (n * 10 + (c.toNat - 48)) :: rest
    | _ => NatChunk.num (c.toNat - 48) :: acc
  else
    match acc with
    | NatChunk.str cs :: rest => NatChunk.str (cs ++ [c]) :: rest
    | _ => NatChunk.str [c] :: acc

/-- Modelled from the `natsort` library's default key: split the string
into runs of digits (compared numerically) and runs of other characters
(compared lexicographically). -/
def natKey (s : String) : List NatChunk := (s.data.foldl addChunk []).reverse

/-- Three-way comparison of naturals (explicit, to keep proofs local). -/
def cmpNum (m n : Nat) : Ordering :=
  if m < n then Ordering.lt else if n < m then Ordering.gt else Ordering.eq

/-- Lexicographic three-way comparison of character lists. -/
def cmpChars : List Char → List Char → Ordering
  | [], [] => Ordering.eq
  | [], _ :: _ => Ordering.lt
  | _ :: _, [] => Ordering.gt
  | a :: as, b :: bs =>
    if a < b then Ordering.lt else if b < a then Ordering.gt else cmpChars as bs

/-- Comparison of chunks: numeric chunks sort before text chunks
(`natsort` default). -/
def cmpChunk : NatChunk → NatChunk → Ordering
  | NatChunk.num m, NatChunk.num n => cmpNum m n
  | NatChunk.num _, NatChunk.str _ => Ordering.lt
  | NatChunk.str _, NatChunk.num _ => Ordering.gt
  | NatChunk.str a, NatChunk.str b => cmpChars a b

/-- Lexicographic comparison of chunk lists. -/
def cmpKey : List NatChunk → List NatChunk → Ordering
  | [], [] => Ordering.eq
  | [], _ :: _ => Ordering.lt
  | _ :: _, [] => Ordering.gt
  | a :: as, b :: bs =>
    match cmpChunk a b with
    | Ordering.eq => cmpKey as bs
    | o => o

/-- Natural-sort "less or equal" on strings. -/
def natLe (s t : String) : Bool := cmpKey (natKey s) (natKey t) ≠ Ordering.gt

/-- Natural-sort order on paths, by their rendered string (the order
`natsort.natsorted` applies to the globbed paths). -/
def natLeP (a b : APath) : Prop := natLe (renderPath a) (renderPath b) = true

instance : DecidableRel natLeP := fun a b => instDecidableEqBool _ _

/-- `natsort.natsorted`: sort the paths in natural order. -/
def natsorted (l : List APath) : List APath := List.insertionSort natLeP l

/-- The error raised by `get_files_list`:
`ValueError(f"{src} is not directory")` — it names the offending path. -/
inductive ListError where
  | notDirectory (p : APath)
deriving DecidableEq

/-- Does the final component of `p` end with `"." ++ e`?  This is what the
glob pattern `**/*.{ext}` matches. -/
def endsWithExt (p : APath) (e : String) : Bool :=
  decide ((String.append "." e).data <:+ (p.getLastD "").data)

/-- `get_files_list(src, ext)`: raise if `src` is not a directory;
with no extension, `natsort.natsorted(list(src.glob("**/*")))`;
with an extension, `list(src.glob(f"**/*.{ext}"))`. -/
def get_files_list (fs : FS) (src : APath) (ext : Option String) :
    Except ListError (List APath) :=
  if fs.isDir src = false then Except.error (ListError.notDirectory src)
  else
    match ext with
    | none => Except.ok (natsorted (fs.glob src))
    | some e => Except.ok ((fs.glob src).filter (fun p => endsWithExt p e))

/-- Project the list out of a `get_files_list` result (empty on error). -/
def okList : Except ListError (List APath) → List APath
  | Except.ok l => l
  | Except.error _ => []

/-- Result of `get_extension`: a single extension string, or a list of the
distinct extensions found. -/
inductive ExtResult where
  | one (s : String)
  | several (l : List String)
deriving DecidableEq

/-- The extensions (`p.suffix[1:]`) of the files under `p`, one per file,
in glob order.  `get_extension` builds the set of these. -/
def extsOf (fs : FS) (p : APath) : List String :=
  ((fs.glob p).filter (fun q => fs.isFile q)).map (fun q => (pathSuffix q).drop 1)

/-- `get_extension(fp)`: on a directory, the set of `p.suffix[1:]` over all
files below it — a single string when the set has exactly one element,
otherwise the list of its elements (the Python `set` is modelled as the
deduplicated list, its iteration order being unspecified); on a file, its
`suffix[1:]`; otherwise raise `ValueError` naming the path. -/
def get_extension (fs : FS) (p : APath) : Except APath ExtResult :=
  if fs.isDir p then
    let exts := (extsOf fs p).dedup
    if exts.length = 1 then Except.ok (ExtResult.one (exts.headD ""))
    else Except.ok (ExtResult.several exts)
  else if fs.isFile p then Except.ok (ExtResult.one ((pathSuffix p).drop 1))
  else Except.error p

/-- The filesystem for the C1 counterexample: files `/a/b/a/b.txt` and
`/a/b/c.txt` (common path `/a/b`), destination directory `/e`. -/
def fsC1 : FS :=
  { dirs := [[], ["a"], ["a", "b"], ["a", "b", "a"], ["e"]],
    files := [["a", "b", "a", "b.txt"], ["a", "b", "c.txt"]] }

/-- Concrete filesystem for the C3/C4 witnesses: one file `/a/f.txt`. -/
def fsW : FS := FS.mk [[], ["a"]] [["a", "f.txt"]]

/-- Filesystem for the C5 witness: directory `/s` with subdirectory
`/s/k` holding one file `/s/k/f.txt`. -/
def fsC5w : FS := FS.mk [[], ["s"], ["s", "k"]] [["s", "k", "f.txt"]]

/-- Filesystem for the C5 counterexample: directory `/s` whose only entry
is the empty subdirectory `/s/k`; destination `/e` exists. -/
def fsC5 : FS := FS.mk [[], ["s"], ["s", "k"], ["e"]] []

/-- Filesystem for the C7 theorems: directory `/d` with subdirectory
`/d/s` holding one file `/d/s/f.txt`. -/
def fsC7 : FS := FS.mk [[], ["d"], ["d", "s"]] [["d", "s", "f.txt"]]

/-! ### Facts about `pyReplace` (Python `str.replace`) -/

lemma infixOfTail {pat rest : List Char} {c : Char}
    (h : pat <:+: rest) : pat <:+: c :: rest := by
  obtain ⟨t, u, hu⟩ := h
  exact ⟨c :: t, u, by simp [hu]⟩

lemma pyReplaceAux_of_no_occur (pat rep : List Char) (hpat : pat ≠ []) :
    ∀ (fuel : Nat) (s : List Char), ¬ pat <:+: s → pyReplaceAux pat rep fuel s = s := by
  intro fuel
  induction fuel with
  | zero => intro s _; rfl
  | succ fuel ih =>
    intro s hno
    have hcond : ¬ (pat <+: s ∧ pat ≠ []) := by
      rintro ⟨⟨t, ht⟩, -⟩
      exact hno ⟨[], t, by simp [ht]⟩
    match s with
    | [] => simp [pyReplaceAux, hcond]
    | c :: rest =>
      have hrest : ¬ pat <:+: rest := fun h => hno (infixOfTail h)
      simp [pyReplaceAux, hcond, ih rest hrest]

lemma pyReplaceAux_succ_split (pat rep b : List Char) (hpat : pat ≠ [])
    (hno : ¬ pat <:+: b) (fuel : Nat) :
    pyReplaceAux pat rep (fuel + 1) (pat ++ b) = rep ++ b := by
  have hcond : pat <+: pat ++ b ∧ pat ≠ [] := ⟨⟨b, rfl⟩, hpat⟩
  have hdrop : (pat ++ b).drop pat.length = b := by simp
  simp [pyReplaceAux, hcond, hdrop, pyReplaceAux_of_no_occur pat rep hpat fuel b hno]

/-- C1 (amended): inside the copy loop the destination string is computed
by `str.replace`, which substitutes every occurrence of the prefix string;
whenever the prefix string does not recur in the remainder of the rendered
source path, the result is exactly `destination ++ remainder`. -/
theorem C1_amended (preS rem dstS : String) (p : APath)
    (hne : preS.data ≠ [])
    (hsplit : (renderPath p).data = preS.data ++ rem.data)
    (hno : ¬ preS.data <:+: rem.data) :
    dstFileStr preS dstS p = String.mk (dstS.data ++ rem.data) := by
  unfold dstFileStr pyReplace
  rw [hsplit]
  match hpd : preS.data with
  | [] => exact absurd hpd hne
  | x :: xs =>
    rw [List.cons_append]
    have hlen : (x :: (xs ++ rem.data)).length = (xs ++ rem.data).length + 1 := rfl
    rw [hlen, ← List.cons_append,
      pyReplaceAux_succ_split (x :: xs) dstS.data rem.data (by simp) (hpd ▸ hno) _]

theorem C1_amended_witness :
    dstFileStr "/a" "/d" ["a", "f.txt"] = String.mk ("/d".data ++ "/f.txt".data) :=
  C1_amended "/a" "/f.txt" "/d" ["a", "f.txt"] (by decide) (by decide) (by decide)

/-- C1 (counterexample): copying the list
`["/a/b/a/b.txt", "/a/b/c.txt"]` (source prefix `/a/b`) into `/e` copies
the first file to `/e/e.txt` — the second occurrence of `/a/b` inside the
path is also replaced — and not to `/e/a/b.txt` as the claim requires. -/
theorem C1_counterexample :
    (copy_files_to_directory fsC1
        (Src.coll [["a", "b", "a", "b.txt"], ["a", "b", "c.txt"]]) ["e"] false).err = none
    ∧ Mutation.copyFile ["a", "b", "a", "b.txt"] ["e", "e.txt"] ∈
        (copy_files_to_directory fsC1
          (Src.coll [["a", "b", "a", "b.txt"], ["a", "b", "c.txt"]]) ["e"] false).trace
    ∧ ["e", "a", "b.txt"] ∉
        (copy_files_to_directory fsC1
          (Src.coll [["a", "b", "a", "b.txt"], ["a", "b", "c.txt"]]) ["e"] false).fs.files := by
  decide

/-! ### Facts about `lcp` and `os.path.commonpath` -/

lemma lcp_prefix_left : ∀ a b : APath, lcp a b <+: a
  | [], _ => by simp [lcp]
  | _ :: _, [] => by simp [lcp]
  | a :: as, b :: bs => by
    by_cases h : a = b
    · obtain ⟨t, ht⟩ := lcp_prefix_left as bs
      exact ⟨t, by simp [lcp, h, ht]⟩
    · simp [lcp, h]

lemma lcp_prefix_right : ∀ a b : APath, lcp a b <+: b
  | [], _ => by simp [lcp]
  | _ :: _, [] => by simp [lcp]
  | a :: as, b :: bs => by
    by_cases h : a = b
    · obtain ⟨t, ht⟩ := lcp_prefix_right as bs
      exact ⟨t, by simp [lcp, h, ht]⟩
    · simp [lcp, h]

lemma lcp_greatest : ∀ a b c : APath, c <+: a → c <+: b → c <+: lcp a b
  | _, _, [], _, _ => List.nil_prefix
  | [], _, _ :: _, h1, _ => absurd h1 (by simp)
  | _ :: _, [], _ :: _, _, h2 => absurd h2 (by simp)
  | a :: as, b :: bs, x :: cs, h1, h2 => by
    rw [List.cons_prefix_cons] at h1 h2
    obtain ⟨hxa, h1⟩ := h1
    obtain ⟨hxb, h2⟩ := h2
    subst hxa
    subst hxb
    have hl : lcp (x :: as) (x :: bs) = x :: lcp as bs := by simp [lcp]
    rw [hl]
    exact List.cons_prefix_cons.mpr ⟨rfl, lcp_greatest as bs cs h1 h2⟩

lemma commonPathNE_step (q q' : APath) (qs : List APath) :
    commonPathNE q (q' :: qs) = commonPathNE (lcp q q') qs := rfl

lemma commonPathNE_prefix_each :
    ∀ (qs : List APath) (q p : APath), p ∈ q :: qs → commonPathNE q qs <+: p
  | [], q, p, hp => by
    rcases List.mem_cons.mp hp with heq | hp
    · subst heq; exact List.prefix_refl p
    · cases hp
  | q' :: qs', q, p, hp => by
    rw [commonPathNE_step]
    have hq : commonPathNE (lcp q q') qs' <+: lcp q q' :=
      commonPathNE_prefix_each qs' (lcp q q') (lcp q q') (List.mem_cons_self _ _)
    rcases List.mem_cons.mp hp with heq | hp
    · subst heq; exact hq.trans (lcp_prefix_left p q')
    · rcases List.mem_cons.mp hp with heq | hp
      · subst heq; exact hq.trans (lcp_prefix_right q p)
      · exact commonPathNE_prefix_each qs' (lcp q q') p (List.mem_cons_of_mem _ hp)

lemma commonPathNE_greatest :
    ∀ (qs : List APath) (q c : APath), c <+: q → (∀ p ∈ qs, c <+: p) →
      c <+: commonPathNE q qs
  | [], _, _, hq, _ => hq
  | q' :: qs', q, c, hq, hall => by
    rw [commonPathNE_step]
    exact commonPathNE_greatest qs' (lcp q q') c
      (lcp_greatest q q' c hq (hall q' (List.mem_cons_self _ _)))
      (fun p hp => hall p (List.mem_cons_of_mem _ hp))

/-- C6: for a list source, the source prefix computed by
`os.path.commonpath` is the deepest path that is an ancestor of, or equal
to, every entry (the longest common leading segment sequence), and the
resolved source list handed to the copy phase is exactly the given
collection in the given order. -/
theorem C6_list_resolution (q : APath) (qs : List APath) :
    (∀ p ∈ q :: qs, commonPathNE q qs <+: p)
    ∧ (∀ c : APath, (∀ p ∈ q :: qs, c <+: p) → c <+: commonPathNE q qs)
    ∧ (∀ (fs : FS) (dst : APath) (cd : Bool),
        copy_files_to_directory fs (Src.coll (q :: qs)) dst cd =
          afterResolve fs (q :: qs) (commonPathNE q qs) dst cd) :=
  ⟨commonPathNE_prefix_each qs q,
   fun c hall => commonPathNE_greatest qs q c (hall q (List.mem_cons_self _ _))
     (fun p hp => hall p (List.mem_cons_of_mem _ hp)),
   fun _ _ _ => rfl⟩

theorem C6_witness :
    commonPathNE ["a", "b", "x.txt"] [["a", "b", "y.txt"]] <+: ["a", "b", "x.txt"]
    ∧ ["a"] <+: commonPathNE ["a", "b", "x.txt"] [["a", "b", "y.txt"]] :=
  ⟨(C6_list_resolution ["a", "b", "x.txt"] [["a", "b", "y.txt"]]).1
      ["a", "b", "x.txt"] (by decide),
   (C6_list_resolution ["a", "b", "x.txt"] [["a", "b", "y.txt"]]).2.1
      ["a"] (by decide)⟩

/-! ### Facts about `make_directory` and the copy loop -/

lemma mkdirRec_files (fs : FS) (p : APath) : (fs.mkdirRec p).files = fs.files := rfl

lemma mem_dirs_mkdirRec (fs : FS) (p q : APath) (h : q ∈ fs.dirs) :
    q ∈ (fs.mkdirRec p).dirs :=
  List.mem_append_left _ h

lemma prefix_mem_ancestorsOf {q p : APath} (h : q <+: p) : q ∈ ancestorsOf p := by
  obtain ⟨t, rfl⟩ := h
  unfold ancestorsOf
  refine List.mem_map.mpr ⟨q.length, List.mem_range.mpr ?_, List.take_left q t⟩
  simp only [List.length_append]
  omega

lemma prefix_of_mem_ancestorsOf {q p : APath} (h : q ∈ ancestorsOf p) : q <+: p := by
  unfold ancestorsOf at h
  obtain ⟨n, _, rfl⟩ := List.mem_map.mp h
  exact List.take_prefix n p

lemma mkdirRec_mem_ancestor (fs : FS) {q p : APath} (h : q <+: p) :
    q ∈ (fs.mkdirRec p).dirs := by
  unfold FS.mkdirRec
  by_cases hq : q ∈ fs.dirs
  · exact List.mem_append_left _ hq
  · exact List.mem_append_right _
      (List.mem_filter.mpr ⟨prefix_mem_ancestorsOf h, by simp [hq]⟩)

lemma mkdirRec_mem_self (fs : FS) (p : APath) : p ∈ (fs.mkdirRec p).dirs :=
  mkdirRec_mem_ancestor fs (List.prefix_refl p)

lemma mkdirRec_idem (fs : FS) (p : APath) : (fs.mkdirRec p).mkdirRec p = fs.mkdirRec p := by
  have hfilter :
      (ancestorsOf p).filter (fun q => !(decide (q ∈ (fs.mkdirRec p).dirs))) = [] :=
    List.filter_eq_nil_iff.mpr (fun q hq => by
      simp [mkdirRec_mem_ancestor fs (prefix_of_mem_ancestorsOf hq)])
  show FS.mk ((fs.mkdirRec p).dirs ++ _) (fs.mkdirRec p).files = fs.mkdirRec p
  rw [hfilter, List.append_nil]

lemma copyLoop_spec (preS dstS : String) :
    ∀ (l : List APath) (fs : FS),
      (∀ q ∈ fs.dirs, q ∈ (copyLoop preS dstS fs l).1.dirs)
      ∧ (∀ q ∈ fs.files, q ∈ (copyLoop preS dstS fs l).1.files)
      ∧ (∀ p ∈ l, (parsePath (dstFileStr preS dstS p)).dropLast ∈ (copyLoop preS dstS fs l).1.dirs)
      ∧ (∀ s t : APath, Mutation.copyFile s t ∈ (copyLoop preS dstS fs l).2 →
          s ∈ (copyLoop preS dstS fs l).1.files)
  | [], fs => by
    refine ⟨fun q hq => hq, fun q hq => hq, fun p hp => absurd hp (by simp), ?_⟩
    intro s t hmem
    simp [copyLoop] at hmem
  | p :: rest, fs => by
    simp only [copyLoop]
    set D : APath := parsePath (dstFileStr preS dstS p) with hD
    set fs1 : FS := fs.mkdirRec D.dropLast with hfs1
    by_cases hf : fs1.isFile p = true
    · set fs2 : FS := { fs1 with files := fs1.files ++ [D] } with hfs2
      obtain ⟨ihd, ihf, ihl, ihc⟩ := copyLoop_spec preS dstS rest fs2
      simp only [hf, if_true]
      refine ⟨?_, ?_, ?_, ?_⟩
      · intro q hq
        exact ihd q (mem_dirs_mkdirRec fs _ q hq)
      · intro q hq
        refine ihf q ?_
        show q ∈ fs1.files ++ [D]
        exact List.mem_append_left _ ((mkdirRec_files fs D.dropLast) ▸ hq)
      · intro p' hp'
        rcases List.mem_cons.mp hp' with heq | hp'
        · subst heq
          exact ihd _ (mkdirRec_mem_self fs D.dropLast)
        · exact ihl p' hp'
      · intro s t hmem
        rcases List.mem_cons.mp hmem with heq | hmem
        · cases heq
        · rcases List.mem_cons.mp hmem with heq | hmem
          · rw [Mutation.copyFile.injEq] at heq
            obtain ⟨h1, h2⟩ := heq
            subst h1
            refine ihf s ?_
            show s ∈ fs1.files ++ [D]
            exact List.mem_append_left _ (of_decide_eq_true hf)
          · exact ihc s t hmem
    · obtain ⟨ihd, ihf, ihl, ihc⟩ := copyLoop_spec preS dstS rest fs1
      simp only [hf, if_false]
      refine ⟨?_, ?_, ?_, ?_⟩
      · intro q hq
        exact ihd q (mem_dirs_mkdirRec fs _ q hq)
      · intro q hq
        exact ihf q ((mkdirRec_files fs D.dropLast) ▸ hq)
      · intro p' hp'
        rcases List.mem_cons.mp hp' with heq | hp'
        · subst heq
          exact ihd _ (mkdirRec_mem_self fs D.dropLast)
        · exact ihl p' hp'
      · intro s t hmem
        rcases List.mem_cons.mp hmem with heq | hmem
        · cases heq
        · exact ihc s t hmem

/-! ### The destination phase of `copy_files_to_directory` -/

lemma afterResolve_badSuffix (fs : FS) (L : List APath) (pre dst : APath) (cd : Bool)
    (h : pathSuffix dst ≠ "") :
    afterResolve fs L pre dst cd =
      { err := some CopyError.dstNotDirectoryFormat, fs := fs, trace := [] } := by
  simp [afterResolve, h]

lemma afterResolve_missing (fs : FS) (L : List APath) (pre dst : APath)
    (hs : pathSuffix dst = "") (hex : fs.pathExists dst = false) :
    afterResolve fs L pre dst false =
      { err := some CopyError.dstMissing, fs := fs, trace := [] } := by
  simp [afterResolve, hs, hex]

lemma afterResolve_create (fs : FS) (L : List APath) (pre dst : APath)
    (hs : pathSuffix dst = "") :
    (afterResolve fs L pre dst true).err = none
    ∧ (∀ q, q <+: dst → q ∈ (afterResolve fs L pre dst true).fs.dirs) := by
  have hex : (fs.mkdirRec dst).pathExists dst = true := by
    simp [FS.pathExists, FS.isDir, mkdirRec_mem_self]
  constructor
  · simp [afterResolve, hs, hex]
  · intro q hq
    have hmem : q ∈ (fs.mkdirRec dst).dirs := mkdirRec_mem_ancestor fs hq
    have hfinal := ((copyLoop_spec (renderPath pre) (renderPath dst) L (fs.mkdirRec dst)).1) q hmem
    simp [afterResolve, hs, hex]
    exact hfinal

lemma resolve_reduces (fs : FS) (src : Src) (hres : resolvesB fs src = true) :
    ∃ (L : List APath) (pre : APath), ∀ (dst : APath) (cd : Bool),
      copy_files_to_directory fs src dst cd = afterResolve fs L pre dst cd := by
  cases src with
  | coll ps =>
    cases ps with
    | nil => simp [resolvesB] at hres
    | cons q qs => exact ⟨q :: qs, commonPathNE q qs, fun _ _ => rfl⟩
  | single p =>
    by_cases hf : fs.isFile p = true
    · exact ⟨[p], p.dropLast, fun dst cd => by simp [copy_files_to_directory, hf]⟩
    · have hd : fs.isDir p = true := by
        simp only [resolvesB, Bool.or_eq_true] at hres
        exact hres.resolve_left hf
      exact ⟨fs.glob p, p, fun dst cd => by simp [copy_files_to_directory, hf, hd]⟩

/-- C2 (amended): a single path that is neither an existing file nor an
existing directory makes `copy_files_to_directory` fail with the
"unknown source" error with no filesystem mutation; an empty list fails
with the (distinct) `ValueError` raised by `os.path.commonpath`, likewise
with no mutation. -/
theorem C2_amended (fs : FS) (dst : APath) (cd : Bool) :
    (∀ p : APath, fs.isFile p = false → fs.isDir p = false →
      copy_files_to_directory fs (Src.single p) dst cd =
        { err := some CopyError.unknownSource, fs := fs, trace := [] })
    ∧ copy_files_to_directory fs (Src.coll []) dst cd =
        { err := some CopyError.emptyCommon, fs := fs, trace := [] } := by
  constructor
  · intro p hf hd
    simp [copy_files_to_directory, hf, hd]
  · rfl

theorem C2_amended_witness :
    copy_files_to_directory (FS.mk [[], ["out"]] []) (Src.single ["nope"]) ["out"] true =
      { err := some CopyError.unknownSource, fs := FS.mk [[], ["out"]] [], trace := [] } :=
  (C2_amended (FS.mk [[], ["out"]] []) ["out"] true).1 ["nope"] (by decide) (by decide)

/-- C2 (counterexample): on the empty list the error raised is the
`ValueError` from `os.path.commonpath`, not the "source not found"
(`FileNotFoundError("unknown source ...")`) error the claim requires
(no mutation is performed, though). -/
theorem C2_counterexample :
    (copy_files_to_directory (FS.mk [] []) (Src.coll []) ["d"] true).err =
      some CopyError.emptyCommon
    ∧ (copy_files_to_directory (FS.mk [] []) (Src.coll []) ["d"] true).err ≠
      some CopyError.unknownSource
    ∧ (copy_files_to_directory (FS.mk [] []) (Src.coll []) ["d"] true).trace = [] := by
  decide

/-- C3: for a resolvable source and a destination whose final component
has no extension-like suffix, `copy_files_to_directory` fails with the
"destination missing" error before any mutation when the destination is
absent and `create_directory` is false; with `create_directory` true the
destination and all its ancestors are created (idempotently) and the run
completes without error. -/
theorem C3_destination_handling (fs : FS) (src : Src) (dst : APath)
    (hres : resolvesB fs src = true) (hs : pathSuffix dst = "") :
    (fs.pathExists dst = false →
      copy_files_to_directory fs src dst false =
        { err := some CopyError.dstMissing, fs := fs, trace := [] })
    ∧ ((copy_files_to_directory fs src dst true).err = none
        ∧ ∀ q, q <+: dst → q ∈ (copy_files_to_directory fs src dst true).fs.dirs)
    ∧ (fs.mkdirRec dst).mkdirRec dst = fs.mkdirRec dst := by
  obtain ⟨L, pre, heq⟩ := resolve_reduces fs src hres
  refine ⟨?_, ?_, mkdirRec_idem fs dst⟩
  · intro hex
    rw [heq dst false]
    exact afterResolve_missing fs L pre dst hs hex
  · rw [heq dst true]
    exact ⟨(afterResolve_create fs L pre dst hs).1,
           (afterResolve_create fs L pre dst hs).2⟩

theorem C3_witness :
    copy_files_to_directory fsW (Src.single ["a", "f.txt"]) ["out"] false =
      { err := some CopyError.dstMissing, fs := fsW, trace := [] }
    ∧ (copy_files_to_directory fsW (Src.single ["a", "f.txt"]) ["out"] true).err = none :=
  ⟨(C3_destination_handling fsW (Src.single ["a", "f.txt"]) ["out"]
      (by decide) (by decide)).1 (by decide),
   (C3_destination_handling fsW (Src.single ["a", "f.txt"]) ["out"]
      (by decide) (by decide)).2.1.1⟩

/-- C4: for a resolvable source, a destination whose final component has
an extension-like suffix makes `copy_files_to_directory` fail with the
"invalid destination shape" `ValueError`, whatever the filesystem holds at
that path and whatever `create_directory` is, with no mutation. -/
theorem C4_invalid_destination (fs : FS) (src : Src) (dst : APath) (cd : Bool)
    (hres : resolvesB fs src = true) (hs : pathSuffix dst ≠ "") :
    copy_files_to_directory fs src dst cd =
      { err := some CopyError.dstNotDirectoryFormat, fs := fs, trace := [] } := by
  obtain ⟨L, pre, heq⟩ := resolve_reduces fs src hres
  rw [heq dst cd]
  exact afterResolve_badSuffix fs L pre dst cd hs

theorem C4_witness :
    copy_files_to_directory (FS.mk [[], ["a"], ["out.txt"]] [["a", "f.txt"]])
        (Src.single ["a", "f.txt"]) ["out.txt"] true =
      { err := some CopyError.dstNotDirectoryFormat,
        fs := FS.mk [[], ["a"], ["out.txt"]] [["a", "f.txt"]], trace := [] } :=
  C4_invalid_destination (FS.mk [[], ["a"], ["out.txt"]] [["a", "f.txt"]])
    (Src.single ["a", "f.txt"]) ["out.txt"] true (by decide) (by decide)

/-- C9: the checks of `copy_files_to_directory` are strictly ordered —
a source that fails to resolve raises its error (the "unknown source"
`FileNotFoundError` for a missing single path, the common-path
`ValueError` for the empty list) with the filesystem untouched and no
mutation even when `create_directory` is true; and for a resolvable source
the destination-shape check precedes destination creation, so a
suffix-bearing destination raises the shape error with no mutation even
when `create_directory` is true. -/
theorem C9_check_order (fs : FS) (dst : APath) (cd : Bool) :
    (∀ p : APath, fs.isFile p = false → fs.isDir p = false →
      copy_files_to_directory fs (Src.single p) dst cd =
        { err := some CopyError.unknownSource, fs := fs, trace := [] })
    ∧ (copy_files_to_directory fs (Src.coll []) dst cd =
        { err := some CopyError.emptyCommon, fs := fs, trace := [] })
    ∧ (∀ src : Src, resolvesB fs src = true → pathSuffix dst ≠ "" →
        copy_files_to_directory fs src dst cd =
          { err := some CopyError.dstNotDirectoryFormat, fs := fs, trace := [] }) := by
  refine ⟨?_, rfl, ?_⟩
  · intro p hf hd
    simp [copy_files_to_directory, hf, hd]
  · intro src hres hs
    obtain ⟨L, pre, heq⟩ := resolve_reduces fs src hres
    rw [heq dst cd]
    exact afterResolve_badSuffix fs L pre dst cd hs

theorem C9_witness :
    copy_files_to_directory (FS.mk [[]] []) (Src.single ["gone"]) ["d.txt"] true =
      { err := some CopyError.unknownSource, fs := FS.mk [[]] [], trace := [] }
    ∧ copy_files_to_directory (FS.mk [[]] []) (Src.coll [["x"], ["y"]]) ["d.txt"] true =
      { err := some CopyError.dstNotDirectoryFormat, fs := FS.mk [[]] [], trace := [] } :=
  ⟨(C9_check_order (FS.mk [[]] []) ["d.txt"] true).1 ["gone"] (by decide) (by decide),
   (C9_check_order (FS.mk [[]] []) ["d.txt"] true).2.2 (Src.coll [["x"], ["y"]])
      (by decide) (by decide)⟩

lemma afterResolve_run (fs : FS) (L : List APath) (pre dst : APath) (cd : Bool)
    (hs : pathSuffix dst = "")
    (hex : (if cd then fs.mkdirRec dst else fs).pathExists dst = true) :
    afterResolve fs L pre dst cd =
      { err := none,
        fs := (copyLoop (renderPath pre) (renderPath dst)
                (if cd then fs.mkdirRec dst else fs) L).1,
        trace := (if cd then [Mutation.mkdirRec dst] else []) ++
          (copyLoop (renderPath pre) (renderPath dst)
            (if cd then fs.mkdirRec dst else fs) L).2 } := by
  simp [afterResolve, hs, hex]

/-- C5 (amended): on a directory source, the loop runs
`make_directory(dst_file.parent)` for every globbed entry — so after a
successful run the parent of every entry's computed destination exists,
and a directory entry's own destination exists whenever it coincides with
some entry's destination parent (in particular for non-empty
subdirectories, via their children) — and every performed copy has a file
as its source; the destination of an entry with no children below it is
not itself created (see the counterexample). -/
theorem C5_amended (fs : FS) (d dst : APath) (cd : Bool)
    (hfile : fs.isFile d = false) (hdir : fs.isDir d = true)
    (hs : pathSuffix dst = "")
    (hreach : cd = true ∨ fs.pathExists dst = true) :
    (copy_files_to_directory fs (Src.single d) dst cd).err = none
    ∧ (∀ p ∈ fs.glob d,
        (parsePath (dstFileStr (renderPath d) (renderPath dst) p)).dropLast ∈
          (copy_files_to_directory fs (Src.single d) dst cd).fs.dirs)
    ∧ (∀ p ∈ fs.glob d, ∀ c ∈ fs.glob d,
        (parsePath (dstFileStr (renderPath d) (renderPath dst) c)).dropLast =
          parsePath (dstFileStr (renderPath d) (renderPath dst) p) →
        parsePath (dstFileStr (renderPath d) (renderPath dst) p) ∈
          (copy_files_to_directory fs (Src.single d) dst cd).fs.dirs)
    ∧ (∀ s t : APath,
        Mutation.copyFile s t ∈ (copy_files_to_directory fs (Src.single d) dst cd).trace →
        s ∈ (copy_files_to_directory fs (Src.single d) dst cd).fs.files) := by
  have heq : copy_files_to_directory fs (Src.single d) dst cd =
      afterResolve fs (fs.glob d) d dst cd := by
    simp [copy_files_to_directory, hfile, hdir]
  have hex : (if cd then fs.mkdirRec dst else fs).pathExists dst = true := by
    cases cd with
    | true => simp [FS.pathExists, FS.isDir, mkdirRec_mem_self]
    | false => simpa using hreach.resolve_left (by simp)
  have hrun := afterResolve_run fs (fs.glob d) d dst cd hs hex
  rw [heq, hrun]
  obtain ⟨mdirs, mfiles, mloop, mcopy⟩ :=
    copyLoop_spec (renderPath d) (renderPath dst)
      (fs.glob d) (if cd then fs.mkdirRec dst else fs)
  refine ⟨rfl, fun p hp => mloop p hp, fun p hp c hc hpc => hpc ▸ mloop c hc, ?_⟩
  intro s t hmem
  rcases List.mem_append.mp hmem with hmem | hmem
  · exfalso
    cases cd <;> simp at hmem
  · exact mcopy s t hmem

theorem C5_witness :
    (copy_files_to_directory fsC5w (Src.single ["s"]) ["e"] true).err = none
    ∧ (parsePath (dstFileStr (renderPath ["s"]) (renderPath ["e"])
          ["s", "k", "f.txt"])).dropLast ∈
        (copy_files_to_directory fsC5w (Src.single ["s"]) ["e"] true).fs.dirs :=
  ⟨(C5_amended fsC5w ["s"] ["e"] true (by decide) (by decide) (by decide) (Or.inl rfl)).1,
   (C5_amended fsC5w ["s"] ["e"] true (by decide) (by decide) (by decide)
      (Or.inl rfl)).2.1 ["s", "k", "f.txt"] (by decide)⟩

/-- C5 (counterexample): copying directory `/s` (whose only entry is the
empty subdirectory `/s/k`) into the existing `/e` succeeds, but the
corresponding destination directory `/e/k` does not exist afterwards —
only the parent of each entry's destination is created. -/
theorem C5_counterexample :
    (copy_files_to_directory fsC5 (Src.single ["s"]) ["e"] false).err = none
    ∧ ["s", "k"] ∈ fsC5.glob ["s"]
    ∧ fsC5.isDir ["s", "k"] = true
    ∧ ["e", "k"] ∉ (copy_files_to_directory fsC5 (Src.single ["s"]) ["e"] false).fs.dirs := by
  decide

/-! ### The natural-sort order is total and transitive -/

lemma cmpNum_lt_iff (m n : Nat) : cmpNum m n = Ordering.lt ↔ m < n := by
  unfold cmpNum
  by_cases h1 : m < n
  · simp [h1]
  · by_cases h2 : n < m <;> simp [h1, h2]

lemma cmpNum_eq_iff (m n : Nat) : cmpNum m n = Ordering.eq ↔ m = n := by
  unfold cmpNum
  by_cases h1 : m < n
  · simp [h1]; omega
  · by_cases h2 : n < m
    · simp [h1, h2]; omega
    · simp [h1, h2]; omega

lemma cmpNum_swap (m n : Nat) : cmpNum n m = (cmpNum m n).swap := by
  unfold cmpNum
  by_cases h1 : m < n
  · have h2 : ¬ n < m := by omega
    simp [h1, h2, Ordering.swap]
  · by_cases h2 : n < m
    · simp [h1, h2, Ordering.swap]
    · simp [h1, h2, Ordering.swap]

lemma cmpChars_eq_iff : ∀ a b : List Char, cmpChars a b = Ordering.eq ↔ a = b
  | [], [] => by simp [cmpChars]
  | [], _ :: _ => by simp [cmpChars]
  | _ :: _, [] => by simp [cmpChars]
  | a :: as, b :: bs => by
    by_cases h1 : a < b
    · simp only [cmpChars, if_pos h1]
      constructor
      · intro hc; cases hc
      · intro he; cases he; exact absurd h1 (lt_irrefl a)
    · by_cases h2 : b < a
      · simp only [cmpChars, if_neg h1, if_pos h2]
        constructor
        · intro hc; cases hc
        · intro he; cases he; exact absurd h2 (lt_irrefl a)
      · have hab : a = b := le_antisymm (not_lt.mp h2) (not_lt.mp h1)
        subst hab
        simp only [cmpChars, if_neg h1, if_neg h2]
        rw [cmpChars_eq_iff as bs]
        simp

lemma cmpChars_lt_trans : ∀ a b c : List Char,
    cmpChars a b = Ordering.lt → cmpChars b c = Ordering.lt → cmpChars a c = Ordering.lt
  | [], [], _, h1, _ => by simp [cmpChars] at h1
  | [], _ :: _, [], _, h2 => by simp [cmpChars] at h2
  | [], _ :: _, _ :: _, _, _ => by simp [cmpChars]
  | _ :: _, [], _, h1, _ => by simp [cmpChars] at h1
  | _ :: _, _ :: _, [], _, h2 => by simp [cmpChars] at h2
  | a :: as, b :: bs, c :: cs, h1, h2 => by
    by_cases hab : a < b
    · by_cases hbc : b < c
      · simp [cmpChars, lt_trans hab hbc]
      · by_cases hcb : c < b
        · simp [cmpChars, hbc, hcb] at h2
        · have hbc' : b = c := le_antisymm (not_lt.mp hcb) (not_lt.mp hbc)
          subst hbc'
          simp [cmpChars, hab]
    · by_cases hba : b < a
      · simp [cmpChars, hab, hba] at h1
      · have hab' : a = b := le_antisymm (not_lt.mp hba) (not_lt.mp hab)
        subst hab'
        simp only [cmpChars, if_neg (lt_irrefl a)] at h1
        by_cases hac : a < c
        · simp [cmpChars, hac]
        · by_cases hca : c < a
          · simp [cmpChars, hac, hca] at h2
          · have hac' : a = c := le_antisymm (not_lt.mp hca) (not_lt.mp hac)
            subst hac'
            simp only [cmpChars, if_neg (lt_irrefl a)] at h2 ⊢
            exact cmpChars_lt_trans as bs cs h1 h2

lemma cmpChars_swap : ∀ a b : List Char, cmpChars b a = (cmpChars a b).swap
  | [], [] => rfl
  | [], _ :: _ => rfl
  | _ :: _, [] => rfl
  | a :: as, b :: bs => by
    by_cases h1 : a < b
    · have h2 : ¬ b < a := asymm h1
      simp [cmpChars, h1, h2, Ordering.swap]
    · by_cases h2 : b < a
      · simp [cmpChars, h1, h2, Ordering.swap]
      · simp [cmpChars, h1, h2, cmpChars_swap as bs]

lemma cmpChunk_eq_iff : ∀ a b : NatChunk, cmpChunk a b = Ordering.eq ↔ a = b
  | NatChunk.num m, NatChunk.num n => by simp [cmpChunk, cmpNum_eq_iff]
  | NatChunk.num _, NatChunk.str _ => by simp [cmpChunk]
  | NatChunk.str _, NatChunk.num _ => by simp [cmpChunk]
  | NatChunk.str a, NatChunk.str b => by simp [cmpChunk, cmpChars_eq_iff]

lemma cmpChunk_lt_trans : ∀ a b c : NatChunk,
    cmpChunk a b = Ordering.lt → cmpChunk b c = Ordering.lt → cmpChunk a c = Ordering.lt
  | NatChunk.num _, NatChunk.num _, NatChunk.num _, h1, h2 => by
    simp only [cmpChunk, cmpNum_lt_iff] at h1 h2 ⊢
    omega
  | NatChunk.num _, _, NatChunk.str _, _, _ => by simp [cmpChunk]
  | NatChunk.num _, NatChunk.str _, NatChunk.num _, _, h2 => by simp [cmpChunk] at h2
  | NatChunk.str _, NatChunk.num _, _, h1, _ => by simp [cmpChunk] at h1
  | NatChunk.str _, NatChunk.str _, NatChunk.num _, _, h2 => by simp [cmpChunk] at h2
  | NatChunk.str a, NatChunk.str b, NatChunk.str c, h1, h2 => by
    simp only [cmpChunk] at h1 h2 ⊢
    exact cmpChars_lt_trans a b c h1 h2

lemma cmpChunk_swap : ∀ a b : NatChunk, cmpChunk b a = (cmpChunk a b).swap
  | NatChunk.num m, NatChunk.num n => cmpNum_swap m n
  | NatChunk.num _, NatChunk.str _ => rfl
  | NatChunk.str _, NatChunk.num _ => rfl
  | NatChunk.str a, NatChunk.str b => cmpChars_swap a b

lemma cmpKey_eq_iff : ∀ a b : List NatChunk, cmpKey a b = Ordering.eq ↔ a = b
  | [], [] => by simp [cmpKey]
  | [], _ :: _ => by simp [cmpKey]
  | _ :: _, [] => by simp [cmpKey]
  | a :: as, b :: bs => by
    cases hab : cmpChunk a b with
    | eq =>
      have hab' : a = b := (cmpChunk_eq_iff a b).mp hab
      subst hab'
      simp [cmpKey, hab, cmpKey_eq_iff as bs]
    | lt =>
      simp only [cmpKey, hab]
      constructor
      · intro hc; cases hc
      · intro he
        cases he
        cases ((cmpChunk_eq_iff a a).mpr rfl).symm.trans hab
    | gt =>
      simp only [cmpKey, hab]
      constructor
      · intro hc; cases hc
      · intro he
        cases he
        cases ((cmpChunk_eq_iff a a).mpr rfl).symm.trans hab

lemma cmpKey_lt_trans : ∀ a b c : List NatChunk,
    cmpKey a b = Ordering.lt → cmpKey b c = Ordering.lt → cmpKey a c = Ordering.lt
  | [], [], _, h1, _ => by simp [cmpKey] at h1
  | [], _ :: _, [], _, h2 => by simp [cmpKey] at h2
  | [], _ :: _, _ :: _, _, _ => by simp [cmpKey]
  | _ :: _, [], _, h1, _ => by simp [cmpKey] at h1
  | _ :: _, _ :: _, [], _, h2 => by simp [cmpKey] at h2
  | a :: as, b :: bs, c :: cs, h1, h2 => by
    cases hab : cmpChunk a b with
    | eq =>
      have hab' : a = b := (cmpChunk_eq_iff a b).mp hab
      subst hab'
      simp only [cmpKey, hab] at h1
      cases hac : cmpChunk a c with
      | eq =>
        simp only [cmpKey, hac] at h2 ⊢
        exact cmpKey_lt_trans as bs cs h1 h2
      | lt => simp [cmpKey, hac]
      | gt => simp only [cmpKey, hac] at h2; cases h2
    | lt =>
      cases hbc : cmpChunk b c with
      | eq =>
        have hbc' : b = c := (cmpChunk_eq_iff b c).mp hbc
        subst hbc'
        simp [cmpKey, hab]
      | lt => simp [cmpKey, cmpChunk_lt_trans a b c hab hbc]
      | gt => simp only [cmpKey, hbc] at h2; cases h2
    | gt => simp only [cmpKey, hab] at h1; cases h1

lemma cmpKey_swap : ∀ a b : List NatChunk, cmpKey b a = (cmpKey a b).swap
  | [], [] => rfl
  | [], _ :: _ => rfl
  | _ :: _, [] => rfl
  | a :: as, b :: bs => by
    cases hab : cmpChunk a b with
    | eq =>
      have hba : cmpChunk b a = Ordering.eq := by rw [cmpChunk_swap a b, hab]; rfl
      simp [cmpKey, hab, hba, cmpKey_swap as bs]
    | lt =>
      have hba : cmpChunk b a = Ordering.gt := by rw [cmpChunk_swap a b, hab]; rfl
      simp [cmpKey, hab, hba, Ordering.swap]
    | gt =>
      have hba : cmpChunk b a = Ordering.lt := by rw [cmpChunk_swap a b, hab]; rfl
      simp [cmpKey, hab, hba, Ordering.swap]

lemma cmpKey_le_trans (x y z : List NatChunk) (h1 : cmpKey x y ≠ Ordering.gt)
    (h2 : cmpKey y z ≠ Ordering.gt) : cmpKey x z ≠ Ordering.gt := by
  cases hxy : cmpKey x y with
  | gt => exact absurd hxy h1
  | eq =>
    have hxy' : x = y := (cmpKey_eq_iff x y).mp hxy
    subst hxy'
    exact h2
  | lt =>
    cases hyz : cmpKey y z with
    | gt => exact absurd hyz h2
    | eq =>
      have hyz' : y = z := (cmpKey_eq_iff y z).mp hyz
      subst hyz'
      simp [hxy]
    | lt => simp [cmpKey_lt_trans x y z hxy hyz]

lemma cmpKey_le_total (x y : List NatChunk) :
    cmpKey x y ≠ Ordering.gt ∨ cmpKey y x ≠ Ordering.gt := by
  cases hxy : cmpKey x y with
  | gt =>
    right
    rw [cmpKey_swap x y, hxy]
    simp [Ordering.swap]
  | eq => left; simp [hxy]
  | lt => left; simp [hxy]

lemma natLeP_trans (a b c : APath) (h1 : natLeP a b) (h2 : natLeP b c) : natLeP a c := by
  simp only [natLeP, natLe, decide_eq_true_eq] at h1 h2 ⊢
  exact cmpKey_le_trans _ _ _ h1 h2

lemma natLeP_total (a b : APath) : natLeP a b ∨ natLeP b a := by
  simp only [natLeP, natLe, decide_eq_true_eq]
  exact cmpKey_le_total _ _

/-- C7 (amended): `get_files_list` fails with an error naming the path
when it is not a directory; on a directory with no extension filter it
returns all entries under it recursively — files and directories alike —
in natural-sorted order; with an extension filter it returns exactly the
entries whose final component ends in `"." ++ ext`. -/
theorem C7_amended (fs : FS) (d : APath) :
    (fs.isDir d = false →
      ∀ ext, get_files_list fs d ext = Except.error (ListError.notDirectory d))
    ∧ (∀ p : APath, p ∈ fs.glob d ↔ ((p ∈ fs.dirs ∨ p ∈ fs.files) ∧ d <+: p ∧ d ≠ p))
    ∧ (fs.isDir d = true →
        (∀ l, get_files_list fs d none = Except.ok l →
          l.Perm (fs.glob d) ∧ l.Pairwise natLeP)
        ∧ (∀ (e : String) (l : List APath), get_files_list fs d (some e) = Except.ok l →
            ∀ p, p ∈ l ↔ (p ∈ fs.glob d ∧ endsWithExt p e = true))) := by
  refine ⟨?_, ?_, ?_⟩
  · intro h ext
    simp [get_files_list, h]
  · intro p
    simp [FS.glob, List.mem_filter, List.mem_append]
    tauto
  · intro hdir
    constructor
    · intro l hl
      have hnat : l = natsorted (fs.glob d) := by
        simp [get_files_list, hdir] at hl
        exact hl.symm
      subst hnat
      haveI : IsTrans APath natLeP := ⟨natLeP_trans⟩
      haveI : IsTotal APath natLeP := ⟨natLeP_total⟩
      exact ⟨List.perm_insertionSort natLeP (fs.glob d),
             List.sorted_insertionSort natLeP (fs.glob d)⟩
    · intro e l hl p
      have hfil : l = (fs.glob d).filter (fun p => endsWithExt p e) := by
        simp [get_files_list, hdir] at hl
        exact hl.symm
      subst hfil
      simp [List.mem_filter]

theorem C7_witness :
    (natsorted (fsC7.glob ["d"])).Perm (fsC7.glob ["d"])
    ∧ (natsorted (fsC7.glob ["d"])).Pairwise natLeP :=
  ((C7_amended fsC7 ["d"]).2.2 (by decide)).1 (natsorted (fsC7.glob ["d"])) rfl

/-- C7 (counterexample): with no extension filter, `get_files_list` on
`/d` also returns the subdirectory `/d/s`, which is not a file — the
result is not "exactly the files" under the directory. -/
theorem C7_counterexample :
    ["d", "s"] ∈ okList (get_files_list fsC7 ["d"] none)
    ∧ fsC7.isFile ["d", "s"] = false := by
  decide

/-- C8: `get_extension` returns the bare extension of a file; on a
directory it collects the distinct extensions of all files below it,
returning a single string exactly when one distinct extension exists and
the deduplicated collection otherwise (never an error on a directory);
on anything else it fails naming the path. -/
theorem C8_get_extension (fs : FS) (p : APath) :
    (fs.isDir p = false → fs.isFile p = true →
      get_extension fs p = Except.ok (ExtResult.one ((pathSuffix p).drop 1)))
    ∧ (fs.isDir p = false → fs.isFile p = false → get_extension fs p = Except.error p)
    ∧ (fs.isDir p = true →
        (∀ s, get_extension fs p = Except.ok (ExtResult.one s) →
          (∀ e, e ∈ extsOf fs p ↔ e = s))
        ∧ (∀ l, get_extension fs p = Except.ok (ExtResult.several l) →
            l.Nodup ∧ (∀ e, e ∈ l ↔ e ∈ extsOf fs p) ∧ l.length ≠ 1)
        ∧ ∃ r, get_extension fs p = Except.ok r) := by
  refine ⟨?_, ?_, ?_⟩
  · intro hd hf
    simp [get_extension, hd, hf]
  · intro hd hf
    simp [get_extension, hd, hf]
  · intro hd
    refine ⟨?_, ?_, ?_⟩
    · intro s hs e
      by_cases hlen : (extsOf fs p).dedup.length = 1
      · have hs' : (extsOf fs p).dedup.head?.getD "" = s := by
          simp [get_extension, hd, hlen] at hs
          exact hs
        obtain ⟨x, hx⟩ := List.length_eq_one.mp hlen
        have hxs : x = s := by
          rw [hx] at hs'
          simpa using hs'
        subst hxs
        constructor
        · intro he
          have hmem : e ∈ (extsOf fs p).dedup := List.mem_dedup.mpr he
          rw [hx] at hmem
          simpa using hmem
        · intro he
          subst he
          have hmem : e ∈ (extsOf fs p).dedup := by rw [hx]; simp
          exact List.mem_dedup.mp hmem
      · exfalso
        simp [get_extension, hd, hlen] at hs
    · intro l hl
      by_cases hlen : (extsOf fs p).dedup.length = 1
      · exfalso
        simp [get_extension, hd, hlen] at hl
      · have hl' : (extsOf fs p).dedup = l := by
          simp [get_extension, hd, hlen] at hl
          exact hl
        subst hl'
        exact ⟨List.nodup_dedup _, fun e => List.mem_dedup, hlen⟩
    · by_cases hlen : (extsOf fs p).dedup.length = 1
      · exact ⟨ExtResult.one ((extsOf fs p).dedup.headD ""),
          by simp [get_extension, hd, hlen]⟩
      · exact ⟨ExtResult.several ((extsOf fs p).dedup),
          by simp [get_extension, hd, hlen]⟩

theorem C8_witness :
    get_extension (FS.mk [] [["a", "b.png"]]) ["a", "b.png"] =
      Except.ok (ExtResult.one ((pathSuffix ["a", "b.png"]).drop 1)) :=
  (C8_get_extension (FS.mk [] [["a", "b.png"]]) ["a", "b.png"]).1 (by decide) (by decide)

/-- C10: on an existing directory with no files below it (recursively),
`get_extension` does not fail — it returns the empty collection of
extensions. -/
theorem C10_empty_directory (fs : FS) (p : APath)
    (hdir : fs.isDir p = true)
    (hnof : (fs.glob p).filter (fun q => fs.isFile q) = []) :
    get_extension fs p = Except.ok (ExtResult.several []) := by
  have hexts : extsOf fs p = [] := by
    unfold extsOf
    rw [hnof]
    rfl
  simp [get_extension, hdir, hexts]

theorem C10_witness :
    get_extension (FS.mk [[], ["d"], ["d", "sub"]] []) ["d"] =
      Except.ok (ExtResult.several []) :=
  C10_empty_directory (FS.mk [[], ["d"], ["d", "sub"]] []) ["d"] (by decide) (by decide)
